import Mathlib

/- Verification development for the running-log repository.
   Shallow embedding of the Strava sync service (webapp/services/strava.py),
   the data model (webapp/models.py) and the route-level aggregation logic
   (webapp/routes/main.py, webapp/routes/dashboard.py, webapp/routes/runs.py).

   Modelling conventions:
   * Calendar dates are day numbers (an integer), chosen so that day 0 is a
     Monday; Python's date.weekday() becomes d % 7 and the Monday anchor
     date - timedelta(days=date.weekday()) becomes d - d % 7.
   * Unix timestamps are integers (seconds).
   * Python Decimal values with two fractional digits are rationals; the
     default Decimal quantization mode ROUND_HALF_EVEN is modelled exactly.
     Activity distances arrive as whole metres; on that domain the float
     division by 1000 followed by str() round-trips to the exact decimal
     value, so the float detour of the source is the identity and the
     conversion is modelled as exact rational arithmetic.
   * The SQLAlchemy session is a list of rows in insertion order; queries
     with .first() take the first matching row.  The dedup query inside
     the sync loop sees rows added earlier in the same session (autoflush).
   * Python exceptions are modelled with Except: an .error value is an
     exception propagating out of the modelled function. -/

namespace RunningLog

/-- Floor of a rational number. -/
def qfloor (q : ℚ) : ℤ := Int.floor q

/-- Rounding of a rational to the nearest integer with ties to even:
the ROUND_HALF_EVEN mode that Python Decimal.quantize applies by default
(strava.py lines 123 and 128 call quantize with no rounding argument). -/
def roundHalfEven (q : ℚ) : ℤ :=
  let n := qfloor q
  let frac := q - n
  if frac < 1/2 then n
  else if 1/2 < frac then n + 1
  else if n % 2 = 0 then n else n + 1

/-- Rounding of a rational to the nearest integer with ties away from zero
(ROUND_HALF_UP in Python Decimal terms).  This definition follows the spec
text, not the source; it exists to compare the spec claim about the
rounding mode with what the source does. -/
def roundHalfUp (q : ℚ) : ℤ :=
  if 0 ≤ q then qfloor (q + 1/2)
  else -(qfloor (-q + 1/2))

/-- Quantization of a rational to two decimal places under half-even ties:
the model of Decimal(str(x)).quantize(Decimal(.01)). -/
def quantize2 (q : ℚ) : ℚ := (roundHalfEven (q * 100) : ℚ) / 100

/-- A raw Strava activity as consumed by the sync service: numeric id,
type tag, distance in metres, moving time in seconds, and the date
component of start_date_local as a day number. -/
structure Activity where
  id : ℤ
  type : String
  distance : ℤ
  moving_time : ℤ
  start_date : ℤ
  deriving DecidableEq, Repr

/-- A row of the runs table (models.py, class Run): date, distance in km
(two-decimal value), optional duration in seconds, optional pace in min/km
(two-decimal value), optional Strava activity id, and source tag. -/
structure Run where
  date : ℤ
  distance : ℚ
  duration : Option ℤ
  pace : Option ℚ
  stravaId : Option ℤ
  source : String
  deriving DecidableEq, Repr

/-- Conversion of one raw activity into a Run row, as performed by the body
of the import loop in sync_activities_to_db (strava.py lines 122-144):
distance metres/1000 quantized to two decimals, pace
duration/60/distance_km quantized to two decimals when the converted
distance is positive and absent otherwise, date from start_date_local,
source tag strava. -/
def activityToRun (a : Activity) : Run :=
  let d := quantize2 ((a.distance : ℚ) / 1000)
  { date := a.start_date
    distance := d
    duration := some a.moving_time
    pace := if 0 < d then some (quantize2 ((a.moving_time : ℚ) / 60 / d)) else none
    stravaId := some a.id
    source := "strava" }

/-- The dedup query of the import loop: does the store hold a Run whose
strava_activity_id equals the given id (Run.query.filter_by(...).first()
tested for existence)? -/
def hasStravaId (s : List Run) (i : ℤ) : Bool :=
  s.any (fun r => r.stravaId == some i)

/-- The import loop of sync_activities_to_db (strava.py lines 108-149):
walk the activities in order; skip one whose id is already present
(counting it as skipped), otherwise append its converted Run (counting it
as synced).  Returns the final store and the (synced, skipped) pair. -/
def syncActivitiesToDb : List Activity → List Run → List Run × ℕ × ℕ
  | [], s => (s, 0, 0)
  | a :: rest, s =>
    if hasStravaId s a.id then
      let out := syncActivitiesToDb rest s
      (out.1, out.2.1, out.2.2 + 1)
    else
      let out := syncActivitiesToDb rest (s ++ [activityToRun a])
      (out.1, out.2.1 + 1, out.2.2)

theorem hasStravaId_append (s t : List Run) (i : ℤ) :
    hasStravaId (s ++ t) i = (hasStravaId s i || hasStravaId t i) := by
  simp [hasStravaId, List.any_append]

theorem sync_store_extends (as : List Activity) (s : List Run) :
    ∃ t, (syncActivitiesToDb as s).1 = s ++ t := by
  induction as generalizing s with
  | nil => exact ⟨[], by simp [syncActivitiesToDb]⟩
  | cons a rest ih =>
    by_cases h : hasStravaId s a.id = true
    · simpa [syncActivitiesToDb, h] using ih s
    · obtain ⟨t, ht⟩ := ih (s ++ [activityToRun a])
      exact ⟨activityToRun a :: t, by simp [syncActivitiesToDb, h, ht]⟩

theorem sync_preserves_id (as : List Activity) (s : List Run) (i : ℤ)
    (h : hasStravaId s i = true) :
    hasStravaId (syncActivitiesToDb as s).1 i = true := by
  obtain ⟨t, ht⟩ := sync_store_extends as s
  rw [ht, hasStravaId_append, h, Bool.true_or]

theorem sync_covers : ∀ (as : List Activity) (s : List Run) (a : Activity), a ∈ as →
    hasStravaId (syncActivitiesToDb as s).1 a.id = true := by
  intro as
  induction as with
  | nil => intro s a ha; cases ha
  | cons b rest ih =>
    intro s a ha
    by_cases h : hasStravaId s b.id = true
    · simp only [syncActivitiesToDb, h, if_true]
      rcases List.mem_cons.mp ha with rfl | hmem
      · exact sync_preserves_id rest s a.id h
      · exact ih s a hmem
    · simp only [syncActivitiesToDb, h, if_false, Bool.false_eq_true]
      rcases List.mem_cons.mp ha with rfl | hmem
      · apply sync_preserves_id
        rw [hasStravaId_append]
        have : hasStravaId [activityToRun a] a.id = true := by
          simp [hasStravaId, activityToRun]
        rw [this, Bool.or_true]
      · exact ih (s ++ [activityToRun b]) a hmem

theorem sync_skip_all : ∀ (as : List Activity) (s : List Run),
    (∀ a ∈ as, hasStravaId s a.id = true) →
    syncActivitiesToDb as s = (s, 0, as.length) := by
  intro as
  induction as with
  | nil => intro s _; rfl
  | cons b rest ih =>
    intro s h
    have hb := h b (by simp)
    have hr : ∀ a ∈ rest, hasStravaId s a.id = true := fun a ha => h a (by simp [ha])
    simp [syncActivitiesToDb, hb, ih s hr]

/-- C1: importing the same list of raw activities twice against the same
store yields the same final set of Runs as importing once, and the second
call returns imported_count = 0 and skipped_count equal to the input
size. -/
theorem import_idempotent (as : List Activity) (s : List Run) :
    (syncActivitiesToDb as (syncActivitiesToDb as s).1).1 = (syncActivitiesToDb as s).1 ∧
    (syncActivitiesToDb as (syncActivitiesToDb as s).1).2.1 = 0 ∧
    (syncActivitiesToDb as (syncActivitiesToDb as s).1).2.2 = as.length := by
  have h := sync_skip_all as (syncActivitiesToDb as s).1
    (fun a ha => sync_covers as s a ha)
  rw [h]
  exact ⟨rfl, rfl, rfl⟩

theorem sync_new_runs : ∀ (as : List Activity) (s : List Run) (r : Run),
    r ∈ (syncActivitiesToDb as s).1 → r ∈ s ∨ ∃ a ∈ as, r = activityToRun a := by
  intro as
  induction as with
  | nil => intro s r hr; left; simpa [syncActivitiesToDb] using hr
  | cons b rest ih =>
    intro s r hr
    by_cases h : hasStravaId s b.id = true
    · rcases ih s r (by simpa [syncActivitiesToDb, h] using hr) with hs | ⟨a, ha, rfl⟩
      · left; exact hs
      · right; exact ⟨a, by simp [ha], rfl⟩
    · have hr2 : r ∈ (syncActivitiesToDb rest (s ++ [activityToRun b])).1 := by
        simpa [syncActivitiesToDb, h] using hr
      rcases ih _ r hr2 with hs | ⟨a, ha, rfl⟩
      · rcases List.mem_append.mp hs with h1 | h2
        · left; exact h1
        · right; exact ⟨b, by simp, by simpa using h2⟩
      · right; exact ⟨a, by simp [ha], rfl⟩

/-- A sample raw activity: the 5000 m, 1500 s run of the spec's end-to-end
scenario. -/
def actRun5k : Activity :=
  { id := 1, type := "Run", distance := 5000, moving_time := 1500, start_date := 0 }

/-- C2 counterexample: for an activity of 125 metres the code stores
distance 0.12 km (Decimal quantize with its default half-even ties), while
rounding 0.125 to two decimal places with half-up ties as the claim states
gives 0.13, so the stored distance is not the half-up rounding. -/
theorem distance_rounding_counterexample :
    (activityToRun
        { id := 77, type := "Run", distance := 125, moving_time := 600, start_date := 10 }).distance
      = 12/100 ∧
    (roundHalfUp (((125 : ℚ) / 1000) * 100) : ℚ) / 100 = 13/100 ∧
    (activityToRun
        { id := 77, type := "Run", distance := 125, moving_time := 600, start_date := 10 }).distance
      ≠ (roundHalfUp (((125 : ℚ) / 1000) * 100) : ℚ) / 100 := by
  refine ⟨?_, ?_, ?_⟩
  · norm_num [activityToRun, quantize2, roundHalfEven, qfloor]
  · norm_num [roundHalfUp, qfloor]
  · norm_num [activityToRun, quantize2, roundHalfEven, roundHalfUp, qfloor]

/-- C2 (amended): for every imported raw activity, the stored distance is
the activity's metres divided by 1000, rounded to exactly two decimal
places with ties to the even cent (round-half-even, the Python Decimal
default), not round-half-up. -/
theorem distance_rounding_half_even (as : List Activity) (s : List Run) (r : Run)
    (hr : r ∈ (syncActivitiesToDb as s).1) (hnew : r ∉ s) :
    ∃ a ∈ as, r = activityToRun a ∧
      r.distance = (roundHalfEven ((a.distance : ℚ) / 10) : ℚ) / 100 := by
  rcases sync_new_runs as s r hr with hs | ⟨a, ha, rfl⟩
  · exact absurd hs hnew
  · refine ⟨a, ha, rfl, ?_⟩
    show (roundHalfEven (((a.distance : ℚ) / 1000) * 100) : ℚ) / 100 = _
    have harg : ((a.distance : ℚ) / 1000) * 100 = (a.distance : ℚ) / 10 := by ring
    rw [harg]

/-- Witness for the amended C2 theorem at the 5000 m activity. -/
theorem distance_rounding_half_even_witness :
    ∃ a ∈ [actRun5k], activityToRun actRun5k = activityToRun a ∧
      (activityToRun actRun5k).distance = (roundHalfEven ((a.distance : ℚ) / 10) : ℚ) / 100 :=
  distance_rounding_half_even [actRun5k] [] (activityToRun actRun5k)
    (by simp [syncActivitiesToDb, hasStravaId]) (by simp)

/-- C5: every Run created by the import stores, when its converted distance
is positive, pace = duration_seconds / 60 / distance_km rounded to two
decimal places, and stores no pace (None) when its converted distance is
zero. -/
theorem pace_derivation (as : List Activity) (s : List Run) (r : Run)
    (hr : r ∈ (syncActivitiesToDb as s).1) (hnew : r ∉ s) :
    ∃ t, r.duration = some t ∧
      (0 < r.distance → r.pace = some (quantize2 ((t : ℚ) / 60 / r.distance))) ∧
      (r.distance = 0 → r.pace = none) := by
  rcases sync_new_runs as s r hr with hs | ⟨a, ha, rfl⟩
  · exact absurd hs hnew
  · refine ⟨a.moving_time, rfl, ?_, ?_⟩
    · intro hpos
      simp only [activityToRun] at hpos ⊢
      rw [if_pos hpos]
    · intro hzero
      simp only [activityToRun] at hzero ⊢
      rw [if_neg (by simp [hzero])]

/-- Witness for C5 at the spec's example: 5000 m in 1500 s gives pace 5.00
min/km. -/
theorem pace_derivation_witness : (activityToRun actRun5k).pace = some 5 := by
  obtain ⟨t, ht, hpos, hzero⟩ := pace_derivation [actRun5k] [] (activityToRun actRun5k)
    (by simp [syncActivitiesToDb, hasStravaId]) (by simp)
  have h1500 : t = 1500 := by
    have h := ht
    rw [show (activityToRun actRun5k).duration = some (1500 : ℤ) from rfl] at h
    exact (Option.some.inj h).symm
  have hd : (activityToRun actRun5k).distance = 5 := by
    norm_num [activityToRun, actRun5k, quantize2, roundHalfEven, qfloor]
  rw [hpos (by rw [hd]; norm_num), h1500, hd]
  norm_num [quantize2, roundHalfEven, qfloor]

/-- A row of the strava_tokens table (models.py, class StravaToken):
athlete id, token pair, and expiry as a unix timestamp. -/
structure StravaToken where
  athleteId : ℤ
  accessToken : String
  refreshToken : String
  expiresAt : ℤ
  deriving DecidableEq, Repr

/-- StravaToken.is_expired (models.py lines 61-63): the token counts as
expired when the current utc timestamp is greater than or equal to
expires_at. -/
def isExpired (now : ℤ) (t : StravaToken) : Bool := decide (now ≥ t.expiresAt)

/-- get_valid_token (strava.py lines 60-69): None when no token row exists;
otherwise the stored token, refreshed first when expired.  The refresh
argument models refresh_access_token (strava.py lines 41-57), whose
raise_for_status makes a failed remote call a propagating exception,
modelled as an error value of the Except monad. -/
def getValidToken (refresh : StravaToken → Except String StravaToken) (now : ℤ)
    (stored : Option StravaToken) : Except String (Option StravaToken) :=
  match stored with
  | none => Except.ok none
  | some t =>
    if isExpired now t then (refresh t).map some
    else Except.ok (some t)

/-- sync_from_strava (strava.py lines 152-163): get_valid_token runs before
the try block; fetch and import run inside it, with requests exceptions
caught and turned into the returned error message.  The result carries the
final run store together with the returned pair (the (synced, skipped)
counts or None, and the error message or None); an error value of the
Except monad is an exception escaping the function. -/
def syncFromStrava (refresh : StravaToken → Except String StravaToken)
    (fetch : StravaToken → Except String (List Activity))
    (now : ℤ) (stored : Option StravaToken) (runs : List Run) :
    Except String (List Run × Option (ℕ × ℕ) × Option String) :=
  match getValidToken refresh now stored with
  | Except.error e => Except.error e
  | Except.ok none => Except.ok (runs, none, some "Strava not connected")
  | Except.ok (some t) =>
    match fetch t with
    | Except.error e => Except.ok (runs, none, some ("Strava API error: " ++ e))
    | Except.ok acts =>
      let out := syncActivitiesToDb acts runs
      Except.ok (out.1, some (out.2.1, out.2.2), none)

/-- C8: get_valid_token returns None exactly when no credential row exists;
otherwise it returns the stored credential, first performing a refresh if
and only if the credential's expiry instant is at or before the current
time. -/
theorem get_valid_token_spec (refresh : StravaToken → Except String StravaToken)
    (now : ℤ) (stored : Option StravaToken) :
    (getValidToken refresh now stored = Except.ok none ↔ stored = none) ∧
    (∀ t, stored = some t → ¬ now ≥ t.expiresAt →
      getValidToken refresh now stored = Except.ok (some t)) ∧
    (∀ t, stored = some t → now ≥ t.expiresAt →
      getValidToken refresh now stored = (refresh t).map some) := by
  refine ⟨⟨?_, ?_⟩, ?_, ?_⟩
  · intro h
    match stored with
    | none => rfl
    | some t =>
      simp only [getValidToken] at h
      by_cases he : isExpired now t = true
      · rw [if_pos he] at h
        cases hr : refresh t with
        | error e => rw [hr] at h; simp [Except.map] at h
        | ok t2 => rw [hr] at h; simp [Except.map] at h
      · rw [if_neg he] at h
        simp at h
  · rintro rfl; rfl
  · intro t hst hne
    subst hst
    simp only [getValidToken]
    rw [if_neg (by simp [isExpired, hne])]
  · intro t hst hge
    subst hst
    simp only [getValidToken]
    rw [if_pos (by simp [isExpired, hge])]

/-- A sample stored credential that is not yet expired at time 5. -/
def tokFresh : StravaToken :=
  { athleteId := 9, accessToken := "a", refreshToken := "r", expiresAt := 10 }

/-- Witness for C8: at time 5 a credential expiring at 10 is returned
unrefreshed. -/
theorem get_valid_token_spec_witness :
    getValidToken (fun t => Except.ok t) 5 (some tokFresh) = Except.ok (some tokFresh) :=
  (get_valid_token_spec (fun t => Except.ok t) 5 (some tokFresh)).2.1 tokFresh rfl
    (by decide)

/-- A sample stored credential that is already expired at time 100. -/
def tokStale : StravaToken :=
  { athleteId := 9, accessToken := "a", refreshToken := "r", expiresAt := 50 }

/-- C3 counterexample: with an expired stored credential whose remote
refresh fails, sync_from_strava propagates the exception raised inside
get_valid_token instead of catching it and returning a descriptive error
value, because get_valid_token is called before the try block. -/
theorem sync_error_counterexample :
    syncFromStrava (fun _ => Except.error "HTTPError") (fun _ => Except.ok []) 100
      (some tokStale) [] = Except.error "HTTPError" := rfl

/-- C3 (amended): when get_valid_token itself does not raise, sync never
propagates an exception, and a failed fetch is returned as the descriptive
Strava API error value; a failed token refresh inside get_valid_token,
however, escapes sync_from_strava as an exception. -/
theorem sync_error_handling (refresh : StravaToken → Except String StravaToken)
    (fetch : StravaToken → Except String (List Activity))
    (now : ℤ) (stored : Option StravaToken) (runs : List Run)
    (hok : ∀ e, getValidToken refresh now stored ≠ Except.error e) :
    (∃ out, syncFromStrava refresh fetch now stored runs = Except.ok out) ∧
    (∀ t e, getValidToken refresh now stored = Except.ok (some t) →
      fetch t = Except.error e →
      syncFromStrava refresh fetch now stored runs
        = Except.ok (runs, none, some ("Strava API error: " ++ e))) := by
  constructor
  · cases hg : getValidToken refresh now stored with
    | error e => exact absurd hg (hok e)
    | ok o =>
      cases o with
      | none =>
        exact ⟨(runs, none, some "Strava not connected"), by simp [syncFromStrava, hg]⟩
      | some t =>
        cases hf : fetch t with
        | error e =>
          exact ⟨(runs, none, some ("Strava API error: " ++ e)),
            by simp [syncFromStrava, hg, hf]⟩
        | ok acts =>
          exact ⟨((syncActivitiesToDb acts runs).1,
              some ((syncActivitiesToDb acts runs).2.1, (syncActivitiesToDb acts runs).2.2),
              none),
            by simp [syncFromStrava, hg, hf]⟩
  · intro t e hg hf
    simp [syncFromStrava, hg, hf]

/-- Witness for the amended C3 theorem: a fresh credential and a failing
fetch produce the caught error value. -/
theorem sync_error_handling_witness :
    syncFromStrava (fun t => Except.ok t) (fun _ => Except.error "timeout") 5
      (some tokFresh) []
      = Except.ok ([], none, some ("Strava API error: " ++ "timeout")) := by
  have h := sync_error_handling (fun t => Except.ok t) (fun _ => Except.error "timeout") 5
    (some tokFresh) [] (by
      intro e he
      rw [show getValidToken (fun t => Except.ok t) 5 (some tokFresh)
          = Except.ok (some tokFresh) from rfl] at he
      exact Except.noConfusion he)
  exact h.2 tokFresh "timeout" rfl rfl

/-- The type filter of the fetch loop (strava.py line 98): keep only
activities whose type tag is Run. -/
def isRunActivity (a : Activity) : Bool := a.type == "Run"

/-- The paging loop of fetch_recent_activities (strava.py lines 81-103):
request page after page; an empty page ends the loop adding nothing; a
non-empty page is filtered to activities of type Run and appended; a page
shorter than per_page ends the loop after being consumed.  An exhausted
page list models the remote returning empty pages from then on. -/
def fetchPagesLoop (perPage : ℕ) : List (List Activity) → List Activity
  | [] => []
  | p :: rest =>
    if p = [] then []
    else p.filter isRunActivity ++
      (if p.length < perPage then [] else fetchPagesLoop perPage rest)

/-- fetch_recent_activities (strava.py lines 72-105): the remote listing
is queried with the after parameter now - days·86400 (the window start)
and fixed page size 50; the remote argument gives, for each after value,
its stream of pages. -/
def fetchRecentActivities (remote : ℤ → List (List Activity)) (now days : ℤ) :
    List Activity :=
  fetchPagesLoop 50 (remote (now - days * 86400))

theorem fetchPagesLoop_spec :
    ∀ (full : List (List Activity)) (short : List Activity) (rest : List (List Activity)),
    (∀ p ∈ full, p.length = 50) → short.length < 50 →
    fetchPagesLoop 50 (full ++ short :: rest)
      = ((full ++ [short]).flatten).filter isRunActivity := by
  intro full
  induction full with
  | nil =>
    intro short rest _ hshort
    by_cases hempty : short = []
    · subst hempty; simp [fetchPagesLoop]
    · simp [fetchPagesLoop, hempty, hshort]
  | cons p ps ih =>
    intro short rest hfull hshort
    have hp : p.length = 50 := hfull p (by simp)
    have hne : p ≠ [] := by intro h; rw [h] at hp; simp at hp
    have hnlt : ¬ p.length < 50 := by rw [hp]; exact lt_irrefl 50
    simp [fetchPagesLoop, hne, hnlt,
      ih short rest (fun q hq => hfull q (by simp [hq])) hshort, List.filter_append]

/-- C7: fetch_recent_activities pages with fixed size 50 starting from
now minus the window, stops exactly when the first page shorter than the
page size is returned (later pages are never consumed), and its result is
precisely the activities of type Run from the consumed pages in the order
the remote returned them. -/
theorem fetch_recent_spec (remote : ℤ → List (List Activity)) (now days : ℤ)
    (full : List (List Activity)) (short : List Activity)
    (rest : List (List Activity))
    (hremote : remote (now - days * 86400) = full ++ short :: rest)
    (hfull : ∀ p ∈ full, p.length = 50) (hshort : short.length < 50) :
    fetchRecentActivities remote now days
      = ((full ++ [short]).flatten).filter isRunActivity := by
  unfold fetchRecentActivities
  rw [hremote]
  exact fetchPagesLoop_spec full short rest hfull hshort

/-- Witness for C7: a single one-element page yields exactly its Run-typed
activity. -/
theorem fetch_recent_spec_witness :
    fetchRecentActivities (fun _ => [[actRun5k]]) 0 30 = [actRun5k] := by
  have h := fetch_recent_spec (fun _ => [[actRun5k]]) 0 30 [] [actRun5k] []
    rfl (by simp) (by simp)
  simpa [isRunActivity, actRun5k] using h

/-- Replacement of the first element satisfying p by its image under f,
everything else left in place: the model of querying with .first() and
mutating the returned row. -/
def updateFirst (p : Run → Bool) (f : Run → Run) : List Run → List Run
  | [] => []
  | r :: rest => if p r then f r :: rest else r :: updateFirst p f rest

/-- The POST handler of the log route (runs.py lines 18-42): reject a
non-positive distance or one above 100 (no state change); otherwise
overwrite the distance of the first existing Run on the date, or insert a
new Run with default source manual when the date has none. -/
def logRun (s : List Run) (d : ℤ) (dist : ℚ) : List Run :=
  if dist ≤ 0 then s
  else if 100 < dist then s
  else if s.any (fun r => r.date == d) then
    updateFirst (fun r => r.date == d) (fun r => { r with distance := dist }) s
  else
    s ++ [{ date := d, distance := dist, duration := none, pace := none,
            stravaId := none, source := "manual" }]

theorem updateFirst_spec (p : Run → Bool) (f : Run → Run) :
    ∀ s : List Run, s.any p = true →
    ∃ i r, s[i]? = some r ∧ p r = true ∧
      (∀ j r2, j < i → s[j]? = some r2 → p r2 = false) ∧
      updateFirst p f s = s.set i (f r) := by
  intro s
  induction s with
  | nil => intro h; simp at h
  | cons r rest ih =>
    intro h
    by_cases hp : p r = true
    · exact ⟨0, r, by simp, hp, fun j r2 hj _ => absurd hj (Nat.not_lt_zero j),
        by simp [updateFirst, hp]⟩
    · have hrest : rest.any p = true := by
        rcases (List.any_eq_true).mp h with ⟨x, hx, hpx⟩
        rcases List.mem_cons.mp hx with rfl | hxr
        · exact absurd hpx hp
        · exact (List.any_eq_true).mpr ⟨x, hxr, hpx⟩
      obtain ⟨i, r0, hget, hpr, hfirst, heq⟩ := ih hrest
      refine ⟨i + 1, r0, by simpa using hget, hpr, ?_, ?_⟩
      · intro j r2 hj hg
        cases j with
        | zero =>
          have hr2 : r = r2 := by simpa using hg
          rw [← hr2]
          exact Bool.eq_false_iff.mpr hp
        | succ k =>
          exact hfirst k r2 (Nat.lt_of_succ_lt_succ hj) (by simpa using hg)
      · simp [updateFirst, hp, heq]

/-- C9: a valid POST to the log endpoint whose date already has a Run in
the store overwrites the first existing Run on that date in place (its
distance set to the submitted value) instead of inserting a new Run, so
the store keeps its length. -/
theorem manual_log_overwrites (s : List Run) (d : ℤ) (dist : ℚ)
    (hpos : 0 < dist) (hmax : dist ≤ 100) (hex : ∃ r ∈ s, r.date = d) :
    (logRun s d dist).length = s.length ∧
    ∃ i r, s[i]? = some r ∧ r.date = d ∧
      (∀ j r2, j < i → s[j]? = some r2 → r2.date ≠ d) ∧
      logRun s d dist = s.set i { r with distance := dist } := by
  have hany : s.any (fun r => r.date == d) = true := by
    obtain ⟨r, hr, hd⟩ := hex
    exact (List.any_eq_true).mpr ⟨r, hr, by simp [hd]⟩
  have hlog : logRun s d dist
      = updateFirst (fun r => r.date == d) (fun r => { r with distance := dist }) s := by
    unfold logRun
    rw [if_neg (not_le.mpr hpos), if_neg (not_lt.mpr hmax), if_pos hany]
  obtain ⟨i, r, hget, hpr, hfirst, heq⟩ :=
    updateFirst_spec (fun r => r.date == d) (fun r => { r with distance := dist }) s hany
  constructor
  · rw [hlog, heq]
    exact List.length_set s i _
  · refine ⟨i, r, hget, by simpa using hpr, ?_, by rw [hlog, heq]⟩
    intro j r2 hj hg
    simpa using hfirst j r2 hj hg

/-- A sample manually logged run on day 3. -/
def runManual3 : Run :=
  { date := 3, distance := 5, duration := none, pace := none,
    stravaId := none, source := "manual" }

/-- Witness for C9: re-logging day 3 over a one-run store keeps one run. -/
theorem manual_log_overwrites_witness : (logRun [runManual3] 3 7).length = 1 := by
  have h := manual_log_overwrites [runManual3] 3 7 (by norm_num) (by norm_num)
    ⟨runManual3, by simp, rfl⟩
  simpa using h.1

/-- Compatibility of two strava id fields: the first is absent or differs
from the second. -/
def IdOk (x y : Option ℤ) : Prop := x = none ∨ x ≠ y

/-- The uniqueness invariant of models.py line 19 (strava_activity_id is
nullable and unique): no two Runs of the store share a non-null Strava
activity id. -/
def uniqueIds (s : List Run) : Prop := (s.map Run.stravaId).Pairwise IdOk

/-- The POST handler of the edit route (runs.py lines 78-100): reject a
negative distance (no state change); otherwise set the distance of the
addressed run, here addressed by position (a missing run is a 404 with no
state change). -/
def editRun (s : List Run) (i : ℕ) (dist : ℚ) : List Run :=
  if dist < 0 then s
  else
    match s[i]? with
    | none => s
    | some r => s.set i { r with distance := dist }

/-- The delete action of the edit route (runs.py lines 81-85): remove the
addressed run. -/
def deleteRun (s : List Run) (i : ℕ) : List Run := s.eraseIdx i

/-- The store-changing operations of the core: an import batch, a manual
log POST, an edit, a delete, and a failed sync, which commits nothing
because the fetch raises before sync_activities_to_db runs. -/
inductive Op where
  | importBatch : List Activity → Op
  | manualLog : ℤ → ℚ → Op
  | edit : ℕ → ℚ → Op
  | delete : ℕ → Op
  | failedSync : Op

/-- Effect of one operation on the run store. -/
def applyOp (s : List Run) : Op → List Run
  | Op.importBatch as => (syncActivitiesToDb as s).1
  | Op.manualLog d dist => logRun s d dist
  | Op.edit i dist => editRun s i dist
  | Op.delete i => deleteRun s i
  | Op.failedSync => s

theorem uniqueIds_append_one (s : List Run) (r : Run) (hs : uniqueIds s)
    (h : ∀ x ∈ s, IdOk x.stravaId r.stravaId) : uniqueIds (s ++ [r]) := by
  unfold uniqueIds at *
  rw [List.map_append, List.pairwise_append]
  refine ⟨hs, by simp, ?_⟩
  intro x hx y hy
  simp only [List.map_cons, List.map_nil, List.mem_singleton] at hy
  subst hy
  obtain ⟨x0, hx0, rfl⟩ := List.mem_map.mp hx
  exact h x0 hx0

theorem hasStravaId_false_IdOk (s : List Run) (i : ℤ)
    (h : hasStravaId s i = false) : ∀ x ∈ s, IdOk x.stravaId (some i) := by
  intro x hx
  right
  intro hcontra
  have hall := List.any_eq_false.mp h x hx
  simp [hcontra] at hall

theorem sync_unique (as : List Activity) :
    ∀ s, uniqueIds s → uniqueIds (syncActivitiesToDb as s).1 := by
  induction as with
  | nil => intro s hs; simpa [syncActivitiesToDb] using hs
  | cons a rest ih =>
    intro s hs
    by_cases h : hasStravaId s a.id = true
    · simpa [syncActivitiesToDb, h] using ih s hs
    · have hf : hasStravaId s a.id = false := by
        cases hb : hasStravaId s a.id
        · rfl
        · exact absurd hb h
      have hnew : uniqueIds (s ++ [activityToRun a]) := by
        apply uniqueIds_append_one s _ hs
        have hid : (activityToRun a).stravaId = some a.id := rfl
        rw [hid]
        exact hasStravaId_false_IdOk s a.id hf
      simpa [syncActivitiesToDb, h] using ih _ hnew

theorem map_updateFirst (p : Run → Bool) (f : Run → Run) (g : Run → Option ℤ)
    (hf : ∀ r, g (f r) = g r) :
    ∀ s, (updateFirst p f s).map g = s.map g := by
  intro s
  induction s with
  | nil => rfl
  | cons r rest ih =>
    by_cases hp : p r = true
    · simp [updateFirst, hp, hf]
    · simp [updateFirst, hp, ih]

theorem logRun_unique (s : List Run) (d : ℤ) (dist : ℚ) (hs : uniqueIds s) :
    uniqueIds (logRun s d dist) := by
  unfold logRun
  by_cases h1 : dist ≤ 0
  · rw [if_pos h1]; exact hs
  rw [if_neg h1]
  by_cases h2 : 100 < dist
  · rw [if_pos h2]; exact hs
  rw [if_neg h2]
  by_cases h3 : s.any (fun r => r.date == d) = true
  · rw [if_pos h3]
    unfold uniqueIds at *
    rw [map_updateFirst (fun r => r.date == d) (fun r => { r with distance := dist })
      Run.stravaId (fun r => rfl) s]
    exact hs
  · rw [if_neg h3]
    apply uniqueIds_append_one s _ hs
    intro x hx
    show IdOk x.stravaId none
    cases hx0 : x.stravaId with
    | none => left; rfl
    | some v => right; exact fun hc => Option.noConfusion hc

theorem map_set_distance (s : List Run) (i : ℕ) (r : Run) (dist : ℚ)
    (h : s[i]? = some r) :
    (s.set i { r with distance := dist }).map Run.stravaId = s.map Run.stravaId := by
  induction s generalizing i with
  | nil => simp at h
  | cons x rest ih =>
    cases i with
    | zero =>
      have hx : x = r := by simpa using h
      subst hx
      simp [List.set]
    | succ k =>
      simp [List.set, ih k (by simpa using h)]

theorem editRun_unique (s : List Run) (i : ℕ) (dist : ℚ) (hs : uniqueIds s) :
    uniqueIds (editRun s i dist) := by
  unfold editRun
  by_cases h1 : dist < 0
  · rw [if_pos h1]; exact hs
  rw [if_neg h1]
  cases hg : s[i]? with
  | none => exact hs
  | some r =>
    unfold uniqueIds at *
    rw [map_set_distance s i r dist hg]
    exact hs

theorem deleteRun_unique (s : List Run) (i : ℕ) (hs : uniqueIds s) :
    uniqueIds (deleteRun s i) := by
  unfold uniqueIds at *
  exact List.Pairwise.sublist ((List.eraseIdx_sublist s i).map Run.stravaId) hs

/-- C4: every operation — import batch, manual log, edit, delete, failed
sync — preserves the invariant that no two Runs share the same non-null
Strava activity id, and a sync that returns an error value leaves the
store untouched, so no error path leaves a partially-applied import
batch. -/
theorem store_invariant (s : List Run) (hs : uniqueIds s) :
    (∀ op, uniqueIds (applyOp s op)) ∧
    (∀ refresh fetch now stored out,
      syncFromStrava refresh fetch now stored s = Except.ok out →
      out.2.2 ≠ none → out.1 = s) := by
  constructor
  · intro op
    cases op with
    | importBatch as => exact sync_unique as s hs
    | manualLog d dist => exact logRun_unique s d dist hs
    | edit i dist => exact editRun_unique s i dist hs
    | delete i => exact deleteRun_unique s i hs
    | failedSync => exact hs
  · intro refresh fetch now stored out hok hmsg
    unfold syncFromStrava at hok
    split at hok
    · exact Except.noConfusion hok
    · have h := Except.ok.inj hok
      rw [← h]
    · split at hok
      · have h := Except.ok.inj hok
        rw [← h]
      · have h := Except.ok.inj hok
        rw [← h] at hmsg
        exact absurd rfl hmsg

/-- Witness for C4 at the empty store and the no-op of a failed sync. -/
theorem store_invariant_witness : uniqueIds (applyOp [] Op.failedSync) :=
  (store_invariant [] (by exact List.Pairwise.nil)).1 Op.failedSync

/-- A training_plan row (models.py, class TrainingPlan): a date and a
target distance. -/
structure PlanEntry where
  date : ℤ
  target : ℚ
  deriving DecidableEq, Repr

/-- Monday anchor of a date's week: date - timedelta(days=date.weekday()),
with day 0 a Monday so that the zero-based weekday offset is d % 7. -/
def weekMonday (d : ℤ) : ℤ := d - d % 7

/-- The current-week summary of get_week_summary (main.py lines 13-42). -/
structure WeekSummary where
  weekStart : ℤ
  weekEnd : ℤ
  totalRun : ℚ
  totalTarget : ℚ
  daysLogged : ℕ
  progressPercent : ℚ
  deriving Repr

/-- get_week_summary (main.py lines 13-42): runs and targets of the
current Monday-to-Sunday week are summed; progress_percent is
total_run / total_target * 100 when the summed target is positive and the
number 0 otherwise. -/
def getWeekSummary (today : ℤ) (runs : List Run) (plans : List PlanEntry) :
    WeekSummary :=
  let monday := weekMonday today
  let sunday := monday + 6
  let runsW := runs.filter (fun r => decide (monday ≤ r.date) && decide (r.date ≤ sunday))
  let targetsW := plans.filter (fun p => decide (monday ≤ p.date) && decide (p.date ≤ sunday))
  let totalRun := (runsW.map Run.distance).sum
  let totalTarget := (targetsW.map PlanEntry.target).sum
  { weekStart := monday
    weekEnd := sunday
    totalRun := totalRun
    totalTarget := totalTarget
    daysLogged := runsW.length
    progressPercent := if 0 < totalTarget then totalRun / totalTarget * 100 else 0 }

/-- One row of the dashboard weekly-summaries list (dashboard.py lines
47-53); the row carries no percentage field at all, and diff is absent
unless the target is positive. -/
structure WeekRow where
  weekStart : ℤ
  weekEnd : ℤ
  actual : ℚ
  target : ℚ
  diff : Option ℚ
  deriving Repr

/-- The row built for one week key of get_weekly_summaries: actual sums
the distances of the week's runs, target sums the week's plan targets
(plans only ever contribute to weeks that already hold runs, which is
equivalent for emitted rows), diff is actual - target only when the
target is positive. -/
def weekRowFor (runs : List Run) (plans : List PlanEntry) (w : ℤ) : WeekRow :=
  let actual := ((runs.filter (fun r => weekMonday r.date == w)).map Run.distance).sum
  let target := ((plans.filter (fun p => weekMonday p.date == w)).map PlanEntry.target).sum
  { weekStart := w
    weekEnd := w + 6
    actual := actual
    target := target
    diff := if 0 < target then some (actual - target) else none }

/-- Descending insertion, modelling sorted(keys, reverse=True). -/
def insertDesc (x : ℤ) : List ℤ → List ℤ
  | [] => [x]
  | y :: ys => if y ≤ x then x :: y :: ys else y :: insertDesc x ys

/-- Descending sort of the week keys. -/
def sortDesc (l : List ℤ) : List ℤ := l.foldr insertDesc []

/-- get_weekly_summaries (dashboard.py lines 12-55): the week keys are the
Monday anchors of the dates bearing runs (a dict keyed by week Monday);
the keys are listed in descending order, those at or after the current
week's Monday are skipped, and each remaining key yields its row. -/
def getWeeklySummaries (today : ℤ) (runs : List Run) (plans : List PlanEntry) :
    List WeekRow :=
  ((sortDesc ((runs.map (fun r => weekMonday r.date)).dedup)).filter
      (fun w => decide (w < weekMonday today))).map (weekRowFor runs plans)

theorem mem_insertDesc (a x : ℤ) : ∀ l, a ∈ insertDesc x l ↔ a = x ∨ a ∈ l := by
  intro l
  induction l with
  | nil => simp [insertDesc]
  | cons y ys ih =>
    by_cases h : y ≤ x
    · simp [insertDesc, h]
    · simp only [insertDesc, h, if_false, List.mem_cons, ih]
      tauto

theorem mem_sortDesc (a : ℤ) : ∀ l, a ∈ sortDesc l ↔ a ∈ l := by
  intro l
  induction l with
  | nil => simp [sortDesc]
  | cons x xs ih =>
    show a ∈ insertDesc x (sortDesc xs) ↔ _
    rw [mem_insertDesc a x (sortDesc xs), ih]
    simp [List.mem_cons]

/-- A sample 5 km manual run on day 7, the Monday of the week holding
day 9. -/
def runWeek7 : Run :=
  { date := 7, distance := 5, duration := none, pace := none,
    stravaId := none, source := "manual" }

/-- C6 counterexample: with one 5 km run in the current week and no plan
targets, the summed target is zero and get_week_summary reports the
numeric percentage 0 — a percentage value is present, not a distinct
absent "no target" outcome. -/
theorem zero_target_counterexample :
    (getWeekSummary 9 [runWeek7] []).totalTarget = 0 ∧
    (getWeekSummary 9 [runWeek7] []).progressPercent = 0 := by
  constructor
  · norm_num [getWeekSummary, weekMonday, runWeek7]
  · norm_num [getWeekSummary, weekMonday, runWeek7]

theorem getWeekSummary_progress (today : ℤ) (runs : List Run)
    (plans : List PlanEntry) :
    (getWeekSummary today runs plans).progressPercent
      = if 0 < (getWeekSummary today runs plans).totalTarget
        then (getWeekSummary today runs plans).totalRun
          / (getWeekSummary today runs plans).totalTarget * 100
        else 0 := rfl

theorem weekRowFor_diff (runs : List Run) (plans : List PlanEntry) (w : ℤ) :
    (weekRowFor runs plans w).diff
      = if 0 < (weekRowFor runs plans w).target
        then some ((weekRowFor runs plans w).actual - (weekRowFor runs plans w).target)
        else none := rfl

/-- C6 (amended): a week whose summed target distance is zero produces no
division error, but not an absent percentage either: the current-week
summary reports the numeric percentage 0, while a dashboard weekly row
whose target is not positive reports an absent diff (dashboard rows carry
no percentage field at all). -/
theorem zero_target_behaviour (today : ℤ) (runs : List Run) (plans : List PlanEntry)
    (hz : (getWeekSummary today runs plans).totalTarget ≤ 0) :
    (getWeekSummary today runs plans).progressPercent = 0 ∧
    (∀ row ∈ getWeeklySummaries today runs plans, row.target ≤ 0 → row.diff = none) := by
  constructor
  · rw [getWeekSummary_progress, if_neg (not_lt.mpr hz)]
  · intro row hrow htn
    obtain ⟨w, hw, rfl⟩ := List.mem_map.mp hrow
    rw [weekRowFor_diff, if_neg (not_lt.mpr htn)]

/-- Witness for the amended C6 theorem at the concrete zero-target week. -/
theorem zero_target_behaviour_witness :
    (getWeekSummary 9 [runWeek7] []).progressPercent = 0 :=
  (zero_target_behaviour 9 [runWeek7] []
    (by norm_num [getWeekSummary, weekMonday, runWeek7])).1

/-- C10: the weekly-summaries list contains exactly the Monday-anchored
weeks strictly before the current week that hold at least one Run; the
current week is always excluded and a week holding only plan targets is
omitted entirely. -/
theorem weekly_summaries_exactly (today : ℤ) (runs : List Run)
    (plans : List PlanEntry) (w : ℤ) :
    w ∈ (getWeeklySummaries today runs plans).map WeekRow.weekStart ↔
      (w < weekMonday today ∧ ∃ r ∈ runs, weekMonday r.date = w) := by
  unfold getWeeklySummaries
  rw [List.map_map]
  constructor
  · intro h
    obtain ⟨x, hx, hxw⟩ := List.mem_map.mp h
    have hxw2 : x = w := hxw
    subst hxw2
    have hf := List.mem_filter.mp hx
    refine ⟨by simpa using hf.2, ?_⟩
    have hk : x ∈ (runs.map (fun r => weekMonday r.date)).dedup :=
      (mem_sortDesc _ _).mp hf.1
    obtain ⟨r, hr, hrw⟩ := List.mem_map.mp (List.mem_dedup.mp hk)
    exact ⟨r, hr, hrw⟩
  · rintro ⟨hlt, r, hr, hrw⟩
    apply List.mem_map.mpr
    refine ⟨w, ?_, rfl⟩
    apply List.mem_filter.mpr
    refine ⟨?_, by simpa using hlt⟩
    exact (mem_sortDesc _ _).mpr (List.mem_dedup.mpr (List.mem_map.mpr ⟨r, hr, hrw⟩))

end RunningLog
